import Mathlib

/-!
Verification of the Unix daemonization core of `daemoniker`
(`daemoniker/_signals_unix.py`), as a shallow embedding in Lean 4.

Pure helpers (`_make_range_tuples`, the access-mask computation of
`_redirect_stds`) are translated as Lean functions; effectful routines
(`_acquire_pidfile`, `daemonize`, `daemote`, `_write_pid`, `_flush_stds`,
`send`, `ping`) are translated as explicit state passing plus event traces,
with the outcomes of operating-system calls supplied by oracle parameters.
-/

namespace Daemoniker

/-! ## `_make_range_tuples` (FD Reaper range computation)

Python source:
```
exclude = [ii for ii in exclude if ii >= start]
exclude.sort()
ranges = []
seeker = start
for ii in exclude:
    if seeker != ii:
        ranges.append((seeker, ii))
    seeker = ii + 1
if seeker < stop:
    ranges.append((seeker, stop))
return ranges
```
The loop over the sorted exclude list is `makeRangesAux`.
-/

/-- The `for ii in exclude` loop body of `_make_range_tuples`, with the
final `if seeker < stop` check when the list is exhausted. -/
def makeRangesAux (stop : Int) : Int → List Int → List (Int × Int)
  | seeker, [] => if seeker < stop then [(seeker, stop)] else []
  | seeker, ii :: rest =>
      (if seeker ≠ ii then [(seeker, ii)] else []) ++ makeRangesAux stop (ii + 1) rest

/-- `_make_range_tuples(start, stop, exclude)`: the exclude set (a Python set,
modelled as a duplicate-free list) is filtered to elements `≥ start` and sorted
ascending, then walked by `makeRangesAux`. -/
def _make_range_tuples (start stop : Int) (exclude : List Int) : List (Int × Int) :=
  makeRangesAux stop start ((exclude.filter (fun ii => start ≤ ii)).insertionSort (· ≤ ·))

/-- Membership of an integer in the union of a list of half-open ranges. -/
def inRanges (x : Int) (rs : List (Int × Int)) : Prop :=
  ∃ r ∈ rs, r.1 ≤ x ∧ x < r.2

instance (x : Int) (rs : List (Int × Int)) : Decidable (inRanges x rs) := by
  unfold inRanges; infer_instance

lemma inRanges_append (x : Int) (a b : List (Int × Int)) :
    inRanges x (a ++ b) ↔ inRanges x a ∨ inRanges x b := by
  simp [inRanges, List.mem_append, or_and_right, exists_or]

/-- Every range produced by the loop starts at or after the current seeker
and is nonempty. -/
lemma makeRangesAux_bounds (stop : Int) (l : List Int) :
    ∀ (seeker : Int), l.Sorted (· < ·) → (∀ i ∈ l, seeker ≤ i) →
      ∀ r ∈ makeRangesAux stop seeker l, seeker ≤ r.1 ∧ r.1 < r.2 := by
  induction l with
  | nil =>
      intro seeker _ _ r hr
      by_cases h : seeker < stop
      · rw [makeRangesAux, if_pos h] at hr
        simp only [List.mem_singleton] at hr
        subst hr; exact ⟨le_refl _, h⟩
      · rw [makeRangesAux, if_neg h] at hr
        simp at hr
  | cons ii rest ih =>
      intro seeker hs hlb r hr
      rw [List.sorted_cons] at hs
      have hii : seeker ≤ ii := hlb ii (by simp)
      have hrest_lb : ∀ i ∈ rest, ii + 1 ≤ i := fun i hi => by
        have := hs.1 i hi; omega
      rw [makeRangesAux, List.mem_append] at hr
      rcases hr with hr | hr
      · by_cases hne : seeker ≠ ii
        · rw [if_pos hne] at hr
          simp only [List.mem_singleton] at hr
          subst hr; exact ⟨le_refl _, by omega⟩
        · rw [if_neg hne] at hr; simp at hr
      · have := ih (ii + 1) hs.2 hrest_lb r hr
        exact ⟨by omega, this.2⟩

/-- The ranges produced by the loop are pairwise disjoint, in ascending
order: each range ends no later than any later range begins. -/
lemma makeRangesAux_pairwise (stop : Int) (l : List Int) :
    ∀ (seeker : Int), l.Sorted (· < ·) → (∀ i ∈ l, seeker ≤ i) →
      (makeRangesAux stop seeker l).Pairwise (fun r s => r.2 ≤ s.1) := by
  induction l with
  | nil =>
      intro seeker _ _
      by_cases h : seeker < stop
      · rw [makeRangesAux, if_pos h]; simp
      · rw [makeRangesAux, if_neg h]; simp
  | cons ii rest ih =>
      intro seeker hs hlb
      rw [List.sorted_cons] at hs
      have hii : seeker ≤ ii := hlb ii (by simp)
      have hrest_lb : ∀ i ∈ rest, ii + 1 ≤ i := fun i hi => by
        have := hs.1 i hi; omega
      have hrec := ih (ii + 1) hs.2 hrest_lb
      rw [makeRangesAux]
      by_cases hne : seeker ≠ ii
      · rw [if_pos hne, List.singleton_append]
        refine List.Pairwise.cons (fun s hs' => ?_) hrec
        have := makeRangesAux_bounds stop rest (ii + 1) hs.2 hrest_lb s hs'
        simpa using by omega
      · rw [if_neg hne, List.nil_append]; exact hrec

/-- Characterization of the union of the produced ranges, for a sorted,
duplicate-free exclude list bounded above by `stop`.  The upper bound on
the list is genuinely needed: an exclude element above `stop` makes the
loop emit a range overshooting `stop`. -/
lemma inRanges_makeRangesAux (stop : Int) (l : List Int) :
    ∀ (seeker : Int), l.Sorted (· < ·) → (∀ i ∈ l, seeker ≤ i) →
      (∀ i ∈ l, i ≤ stop) →
      ∀ x, inRanges x (makeRangesAux stop seeker l) ↔
        seeker ≤ x ∧ x < stop ∧ x ∉ l := by
  induction l with
  | nil =>
      intro seeker _ _ _ x
      by_cases h : seeker < stop
      · rw [makeRangesAux, if_pos h]; simp [inRanges]
      · rw [makeRangesAux, if_neg h]; simp only [inRanges]; simp; omega
  | cons ii rest ih =>
      intro seeker hs hlb hub x
      rw [List.sorted_cons] at hs
      have hii : seeker ≤ ii := hlb ii (by simp)
      have hiistop : ii ≤ stop := hub ii (by simp)
      have hrest_lb : ∀ i ∈ rest, ii + 1 ≤ i := fun i hi => by
        have := hs.1 i hi; omega
      have hrec := ih (ii + 1) hs.2 hrest_lb
        (fun i hi => hub i (List.mem_cons_of_mem _ hi)) x
      rw [makeRangesAux, inRanges_append]
      by_cases hne : seeker ≠ ii
      · rw [if_pos hne]
        constructor
        · rintro (h1 | h2)
          · simp only [inRanges, List.mem_singleton] at h1
            obtain ⟨r, hr, h1, h2⟩ := h1
            subst hr
            refine ⟨h1, by omega, ?_⟩
            simp only [List.mem_cons, not_or]
            exact ⟨by omega, fun hmem => by have := hrest_lb x hmem; omega⟩
          · rw [hrec] at h2
            refine ⟨by omega, h2.2.1, ?_⟩
            simp only [List.mem_cons, not_or]
            exact ⟨by omega, h2.2.2⟩
        · rintro ⟨h1, h2, h3⟩
          simp only [List.mem_cons, not_or] at h3
          by_cases hlt : x < ii
          · left
            exact ⟨(seeker, ii), List.mem_singleton_self _, h1, hlt⟩
          · right
            rw [hrec]
            have : x ≠ ii := h3.1
            exact ⟨by omega, h2, h3.2⟩
      · rw [if_neg hne]
        have hseek : seeker = ii := by omega
        subst hseek
        constructor
        · rintro (h1 | h2)
          · simp [inRanges] at h1
          · rw [hrec] at h2
            refine ⟨by omega, h2.2.1, ?_⟩
            simp only [List.mem_cons, not_or]
            exact ⟨by omega, h2.2.2⟩
        · rintro ⟨h1, h2, h3⟩
          simp only [List.mem_cons, not_or] at h3
          right
          rw [hrec]
          have : x ≠ seeker := h3.1
          exact ⟨by omega, h2, h3.2⟩

/-- One-directional version needing no upper bound on the exclude list:
whatever lands in a produced range is at or after the seeker and is not
an excluded value.  (Holds even when exclude elements exceed `stop`.) -/
lemma inRanges_makeRangesAux_imp (stop : Int) (l : List Int) :
    ∀ (seeker : Int), l.Sorted (· < ·) → (∀ i ∈ l, seeker ≤ i) →
      ∀ x, inRanges x (makeRangesAux stop seeker l) → seeker ≤ x ∧ x ∉ l := by
  induction l with
  | nil =>
      intro seeker _ _ x hx
      by_cases h : seeker < stop
      · rw [makeRangesAux, if_pos h] at hx
        simp [inRanges] at hx
        simpa using hx.1
      · rw [makeRangesAux, if_neg h] at hx
        simp [inRanges] at hx
  | cons ii rest ih =>
      intro seeker hs hlb x hx
      rw [List.sorted_cons] at hs
      have hii : seeker ≤ ii := hlb ii (by simp)
      have hrest_lb : ∀ i ∈ rest, ii + 1 ≤ i := fun i hi => by
        have := hs.1 i hi; omega
      rw [makeRangesAux, inRanges_append] at hx
      rcases hx with hx | hx
      · by_cases hne : seeker ≠ ii
        · rw [if_pos hne] at hx
          obtain ⟨r, hr, h1, h2⟩ := hx
          simp only [List.mem_singleton] at hr
          subst hr
          refine ⟨h1, ?_⟩
          simp only [List.mem_cons, not_or]
          exact ⟨by omega, fun hmem => by have := hrest_lb x hmem; omega⟩
        · rw [if_neg hne] at hx; simp [inRanges] at hx
      · have := ih (ii + 1) hs.2 hrest_lb x hx
        refine ⟨by omega, ?_⟩
        simp only [List.mem_cons, not_or]
        exact ⟨by omega, this.2⟩

/-- Membership in the filtered, sorted exclude list. -/
lemma mem_filter_sorted (start : Int) (exclude : List Int) (x : Int) :
    x ∈ (exclude.filter (fun ii => start ≤ ii)).insertionSort (· ≤ ·) ↔
      x ∈ exclude ∧ start ≤ x := by
  rw [List.mem_insertionSort, List.mem_filter]
  simp

/-- The filtered exclude list sorts to a strictly increasing list when the
exclude set has no duplicates. -/
lemma sorted_lt_filter_sorted (start : Int) (exclude : List Int)
    (hnd : exclude.Nodup) :
    ((exclude.filter (fun ii => start ≤ ii)).insertionSort (· ≤ ·)).Sorted (· < ·) := by
  refine (List.sorted_insertionSort _ _).lt_of_le ?_
  exact (List.perm_insertionSort _ _).nodup_iff.mpr (hnd.filter _)

/-- An excluded descriptor never falls in any produced range, regardless of
how exclude relates to `stop` — this is the safety direction used by the
FD Reaper to spare shielded descriptors. -/
lemma not_inRanges_of_mem_exclude (start stop : Int) (exclude : List Int)
    (hnd : exclude.Nodup) (x : Int) (hx : x ∈ exclude) :
    ¬ inRanges x (_make_range_tuples start stop exclude) := by
  intro hmem
  rw [_make_range_tuples] at hmem
  have h := inRanges_makeRangesAux_imp stop _ start
    (sorted_lt_filter_sorted start exclude hnd)
    (fun i hi => ((mem_filter_sorted start exclude i).mp hi).2)
    x hmem
  exact h.2 ((mem_filter_sorted start exclude x).mpr ⟨hx, h.1⟩)

/-- **C3 (amended)** — For every pair of integers `start ≤ stop` and every
finite set `exclude` of integers *whose elements are all `≤ stop`*,
`_make_range_tuples start stop exclude` returns a list of disjoint nonempty
half-open ranges in ascending order whose union is exactly the integers in
`[start, stop)` minus `exclude`; in particular `start=3, stop=7, exclude={4}`
yields `[(3,4),(5,7)]`, `exclude={}` yields `[(3,7)]` and
`exclude={3,4,5,6}` yields `[]`.  (The restriction to exclude elements
`≤ stop` is forced: the source filters the exclude set only from below,
`ii >= start`, so an exclude element above `stop` produces a range
overshooting `stop` — see the counterexample.) -/
theorem make_range_tuples_correct (start stop : Int) (exclude : List Int)
    (hnd : exclude.Nodup) (hss : start ≤ stop) (hub : ∀ i ∈ exclude, i ≤ stop) :
    (∀ x : Int, inRanges x (_make_range_tuples start stop exclude) ↔
        (start ≤ x ∧ x < stop ∧ x ∉ exclude)) ∧
    (∀ r ∈ _make_range_tuples start stop exclude, r.1 < r.2) ∧
    (_make_range_tuples start stop exclude).Pairwise (fun r s => r.2 ≤ s.1) ∧
    _make_range_tuples 3 7 [4] = [(3, 4), (5, 7)] ∧
    _make_range_tuples 3 7 [] = [(3, 7)] ∧
    _make_range_tuples 3 7 [3, 4, 5, 6] = [] := by
  have hsort := sorted_lt_filter_sorted start exclude hnd
  have hlb : ∀ i ∈ (exclude.filter (fun ii => start ≤ ii)).insertionSort (· ≤ ·),
      start ≤ i := fun i hi => ((mem_filter_sorted start exclude i).mp hi).2
  have hub' : ∀ i ∈ (exclude.filter (fun ii => start ≤ ii)).insertionSort (· ≤ ·),
      i ≤ stop := fun i hi => hub i ((mem_filter_sorted start exclude i).mp hi).1
  refine ⟨fun x => ?_, ?_, ?_, by decide, by decide, by decide⟩
  · rw [_make_range_tuples, inRanges_makeRangesAux stop _ start hsort hlb hub' x]
    constructor
    · rintro ⟨h1, h2, h3⟩
      exact ⟨h1, h2, fun hmem =>
        h3 ((mem_filter_sorted start exclude x).mpr ⟨hmem, h1⟩)⟩
    · rintro ⟨h1, h2, h3⟩
      exact ⟨h1, h2, fun hmem =>
        h3 ((mem_filter_sorted start exclude x).mp hmem).1⟩
  · intro r hr
    exact (makeRangesAux_bounds stop _ start hsort hlb r hr).2
  · exact makeRangesAux_pairwise stop _ start hsort hlb

/-- Witness for C3 at `start=3, stop=7, exclude={4}`, evaluating the range
union at `x = 3`. -/
theorem make_range_tuples_correct_witness :
    (inRanges 3 (_make_range_tuples 3 7 [4]) ↔
      (3 ≤ (3 : Int) ∧ (3 : Int) < 7 ∧ (3 : Int) ∉ [(4 : Int)])) ∧
    _make_range_tuples 3 7 [4] = [(3, 4), (5, 7)] :=
  ⟨(make_range_tuples_correct 3 7 [4] (by decide) (by decide) (by decide)).1 3,
   (make_range_tuples_correct 3 7 [4] (by decide) (by decide) (by decide)).2.2.2.1⟩

/-- **C3 counterexample** — the claim as stated fails for an exclude element
above `stop`: with `start=3, stop=7, exclude={8}` the source produces the
single range `(3, 8)`, whose union contains `7` even though `7` is not in
`[3, 7) \ {8}`. -/
theorem make_range_tuples_counterexample :
    _make_range_tuples 3 7 [8] = [(3, 8)] ∧
    inRanges 7 (_make_range_tuples 3 7 [8]) ∧
    ¬ (3 ≤ (7 : Int) ∧ (7 : Int) < 7 ∧ (7 : Int) ∉ [(8 : Int)]) := by
  exact ⟨by decide, by decide, by decide⟩

/-! ## `_write_pid` (PidFile Manager, write)

Python source:
```
locked_pidfile.seek(0)
locked_pidfile.truncate(0)
pid = str(os.getpid())
locked_pidfile.write(pid + '\n')
locked_pidfile.flush()
```
An open file is modelled as its byte content, the seek position, and a
flushed flag; the four calls are the usual POSIX/stdio semantics. -/

structure FileState where
  content : List Char
  pos : Nat
  flushed : Bool
deriving DecidableEq

/-- `handle.seek(n)`. -/
def fileSeek (f : FileState) (n : Nat) : FileState := { f with pos := n }

/-- `handle.truncate(n)`: resize the content to at most `n` bytes; the seek
position is unchanged. -/
def fileTruncate (f : FileState) (n : Nat) : FileState :=
  { f with content := f.content.take n }

/-- `handle.write(s)`: overwrite at the current position, extending the file
as needed; buffered output is pending until the next flush. -/
def fileWrite (f : FileState) (s : List Char) : FileState :=
  { f with content := f.content.take f.pos ++ s ++ f.content.drop (f.pos + s.length),
           pos := f.pos + s.length,
           flushed := false }

/-- `handle.flush()`. -/
def fileFlush (f : FileState) : FileState := { f with flushed := true }

/-- `_write_pid(locked_pidfile)` where `pid` is `os.getpid()`:
seek to 0, truncate to 0, write `str(pid) + '\n'`, flush. -/
def _write_pid (pid : Nat) (f : FileState) : FileState :=
  fileFlush (fileWrite (fileTruncate (fileSeek f 0) 0) ((Nat.repr pid).data ++ ['\n']))

/-- **C4** — `_write_pid` on a locked pidfile handle seeks to offset 0,
truncates all prior content, writes the decimal process id followed by
exactly one newline and flushes: whatever the prior content and position,
reading the file back afterwards yields exactly the decimal pid plus one
trailing newline, and the handle is flushed. -/
theorem write_pid_correct (pid : Nat) (f : FileState) :
    (_write_pid pid f).content = (Nat.repr pid).data ++ ['\n'] ∧
    (_write_pid pid f).flushed = true := by
  simp [_write_pid, fileFlush, fileWrite, fileTruncate, fileSeek]

/-! ## `daemonize` ordering (C2)

`daemonize` is modelled by the trace of the externally visible steps it
performs, in source order (`_signals_unix.py`, lines 459–491):
acquire the pidfile, shield its descriptor, register the cleanup hook,
first fork, `_filial_usurpation` (chdir / setsid / umask), second fork,
`_write_pid`, `_autoclose_files` (one `os.closerange(a, b)` per range
computed by `_make_range_tuples`), `_redirect_stds`. -/

inductive DzEvent
  | acquireEv : DzEvent
  | shieldEv : Int → DzEvent
  | registerCleanupEv : DzEvent
  | forkEv : DzEvent
  | chdirEv : DzEvent
  | setsidEv : DzEvent
  | umaskEv : DzEvent
  | writePidEv : DzEvent
  | closeRangeEv : Int → Int → DzEvent
  | redirectEv : DzEvent
deriving DecidableEq

/-- `fdlimit` resolution of `_autoclose_files`: prefer the hard limit; if it
is `RLIM_INFINITY` (modelled by `none`) fall back to a finite soft limit,
and if both are infinite use the fallback constant. -/
def fdlimitOf (softlimit hardlimit : Option Int) (fallback_limit : Int) : Int :=
  match hardlimit with
  | some h => h
  | none =>
      match softlimit with
      | some s => s
      | none => fallback_limit

/-- `_autoclose_files(shielded, fallback_limit)`: one
`os.closerange(start, stop)` per tuple of
`_make_range_tuples(3, fdlimit, shielded)`. -/
def _autoclose_files (shielded : List Int) (softlimit hardlimit : Option Int)
    (fallback_limit : Int) : List DzEvent :=
  (_make_range_tuples 3 (fdlimitOf softlimit hardlimit fallback_limit) shielded).map
    (fun r => DzEvent.closeRangeEv r.1 r.2)

/-- The trace of one `daemonize(pid_file, ...)` execution, in source order.
`pidfd` is `locked_pidfile.fileno()`; `shielded_fds` is the caller-supplied
shielded set (a Python set, modelled as a duplicate-free list); the pidfile
descriptor is added to it before any fork. -/
def daemonize_trace (pidfd : Int) (shielded_fds : List Int)
    (softlimit hardlimit : Option Int) (fd_fallback_limit : Int) : List DzEvent :=
  [DzEvent.acquireEv, DzEvent.shieldEv pidfd, DzEvent.registerCleanupEv,
   DzEvent.forkEv, DzEvent.chdirEv, DzEvent.setsidEv, DzEvent.umaskEv,
   DzEvent.forkEv, DzEvent.writePidEv] ++
  _autoclose_files (shielded_fds.insert pidfd) softlimit hardlimit fd_fallback_limit ++
  [DzEvent.redirectEv]

/-- Fork events occur only at positions 3 and 7 of the daemonize trace. -/
lemma daemonize_trace_fork_pos (pidfd : Int) (shielded_fds : List Int)
    (softlimit hardlimit : Option Int) (fb : Int) (i : Nat)
    (h : (daemonize_trace pidfd shielded_fds softlimit hardlimit fb)[i]? =
      some DzEvent.forkEv) : i = 3 ∨ i = 7 := by
  rw [daemonize_trace] at h
  rcases Nat.lt_or_ge i 9 with hi | hi
  · rw [List.append_assoc, List.getElem?_append_left (by simp; omega)] at h
    interval_cases i <;> simp at h <;> omega
  · exfalso
    rw [List.append_assoc, List.getElem?_append_right (by simp; omega)] at h
    have hmem := List.getElem?_mem h
    rw [List.mem_append] at hmem
    rcases hmem with hmem | hmem
    · rw [_autoclose_files, List.mem_map] at hmem
      obtain ⟨r, _, hr⟩ := hmem
      exact DzEvent.noConfusion hr
    · simp at hmem

/-- Close-range events occur only at positions ≥ 9 of the daemonize trace. -/
lemma daemonize_trace_close_pos (pidfd : Int) (shielded_fds : List Int)
    (softlimit hardlimit : Option Int) (fb : Int) (j : Nat) (a b : Int)
    (h : (daemonize_trace pidfd shielded_fds softlimit hardlimit fb)[j]? =
      some (DzEvent.closeRangeEv a b)) : 9 ≤ j := by
  by_contra hc
  push_neg at hc
  rw [daemonize_trace, List.append_assoc,
    List.getElem?_append_left (by simp; omega)] at h
  interval_cases j <;> simp at h

/-- **C2** — In every execution of `daemonize`, the pidfile is opened and
locked and its descriptor added to the shielded set strictly before the
first fork, and the FD Reaper (`_autoclose_files`) runs only after that,
so the FD Reaper never closes the pidfile descriptor: (1) acquire and
shield are the first two trace events; (2) every fork event comes at
position ≥ 3, and a fork does occur at position 3; (3) every close-range
event comes strictly after every fork event; (4) no emitted close range
covers the pidfile descriptor. -/
theorem daemonize_order (pidfd : Int) (shielded_fds : List Int)
    (softlimit hardlimit : Option Int) (fb : Int)
    (hnd : shielded_fds.Nodup) :
    ((daemonize_trace pidfd shielded_fds softlimit hardlimit fb).take 2 =
      [DzEvent.acquireEv, DzEvent.shieldEv pidfd]) ∧
    (∀ i, (daemonize_trace pidfd shielded_fds softlimit hardlimit fb)[i]? =
      some DzEvent.forkEv → 3 ≤ i) ∧
    ((daemonize_trace pidfd shielded_fds softlimit hardlimit fb)[3]? =
      some DzEvent.forkEv) ∧
    (∀ (i j : Nat) (a b : Int),
      (daemonize_trace pidfd shielded_fds softlimit hardlimit fb)[i]? =
        some DzEvent.forkEv →
      (daemonize_trace pidfd shielded_fds softlimit hardlimit fb)[j]? =
        some (DzEvent.closeRangeEv a b) → i < j) ∧
    (∀ a b, DzEvent.closeRangeEv a b ∈
        daemonize_trace pidfd shielded_fds softlimit hardlimit fb →
      ¬ (a ≤ pidfd ∧ pidfd < b)) := by
  refine ⟨rfl, ?_, rfl, ?_, ?_⟩
  · intro i h
    have := daemonize_trace_fork_pos pidfd shielded_fds softlimit hardlimit fb i h
    omega
  · intro i j a b hi hj
    have h1 := daemonize_trace_fork_pos pidfd shielded_fds softlimit hardlimit fb i hi
    have h2 := daemonize_trace_close_pos pidfd shielded_fds softlimit hardlimit fb j a b hj
    omega
  · intro a b hmem hab
    rw [daemonize_trace, List.append_assoc, List.mem_append] at hmem
    rcases hmem with hmem | hmem
    · simp at hmem
    rw [List.mem_append] at hmem
    rcases hmem with hmem | hmem
    · rw [_autoclose_files, List.mem_map] at hmem
      obtain ⟨r, hr, heq⟩ := hmem
      have ha : r.1 = a := by injection heq
      have hb : r.2 = b := by injection heq
      refine not_inRanges_of_mem_exclude 3
        (fdlimitOf softlimit hardlimit fb) (shielded_fds.insert pidfd)
        (hnd.insert) pidfd (List.mem_insert_self pidfd shielded_fds) ?_
      exact ⟨r, hr, by omega⟩
    · simp at hmem

/-- Witness for C2 at `pidfd = 4`, user-shielded `{5}`, a hard limit of 10. -/
theorem daemonize_order_witness :
    ((daemonize_trace 4 [5] none (some 10) 1024).take 2 =
      [DzEvent.acquireEv, DzEvent.shieldEv 4]) ∧
    ((daemonize_trace 4 [5] none (some 10) 1024)[3]? = some DzEvent.forkEv) :=
  ⟨(daemonize_order 4 [5] none (some 10) 1024 (by decide)).1,
   (daemonize_order 4 [5] none (some 10) 1024 (by decide)).2.2.1⟩

/-! ## `_acquire_pidfile` (C1)

Python source (lines 123–163): open the pidfile (`r+` when it exists,
`w+` otherwise; open failure → log + `SystemExit`), then
`fcntl.flock(locked_pid, fcntl.LOCK_EX | fcntl.LOCK_NB)` (failure → log,
`locked_pid.close()`, `SystemExit`), else return the locked handle.
The file is modelled by its content (`none` = absent); `openOk` and
`flockOk` are oracles for the two fallible operating-system calls. -/

inductive PidEvent
  | openEv (mode : String)
  | flockEv (exclusive nonBlocking : Bool)
  | closeEv
deriving DecidableEq

inductive AcqResult
  | locked
  | systemExit (msg : String)
deriving DecidableEq

structure AcqRun where
  events : List PidEvent
  file : Option (List Char)
  result : AcqResult
deriving DecidableEq

/-- `_acquire_pidfile(pid_file)` over a file with content `file`
(`none` = no file).  `open` in mode `w+` creates the file empty; mode `r+`
keeps its content.  The flock call is exclusive (`LOCK_EX`) and
non-blocking (`LOCK_NB`). -/
def _acquire_pidfile (file : Option (List Char)) (openOk flockOk : Bool) : AcqRun :=
  let mode := if file.isSome then "r+" else "w+"
  if openOk = false then
    { events := [PidEvent.openEv mode], file := file,
      result := AcqResult.systemExit "Unable to create/open PID file." }
  else
    let file' := match file with
      | some c => some c
      | none => some []
    if flockOk = false then
      { events := [PidEvent.openEv mode, PidEvent.flockEv true true, PidEvent.closeEv],
        file := file',
        result := AcqResult.systemExit "Unable to lock PID file." }
    else
      { events := [PidEvent.openEv mode, PidEvent.flockEv true true],
        file := file',
        result := AcqResult.locked }

/-- **C1** — For every pidfile: if the open succeeds but the non-blocking
exclusive lock acquisition fails, `_acquire_pidfile` closes the opened
handle and terminates via `SystemExit`, deleting nothing and leaving any
existing content untouched; every flock it ever issues is exclusive and
non-blocking (it never waits for the lock); and when open and lock both
succeed it returns the locked handle, again preserving existing content. -/
theorem acquire_pidfile_correct (file : Option (List Char)) (openOk flockOk : Bool) :
    (openOk = true → flockOk = false →
      ((_acquire_pidfile file openOk flockOk).result =
        AcqResult.systemExit "Unable to lock PID file." ∧
       PidEvent.closeEv ∈ (_acquire_pidfile file openOk flockOk).events ∧
       (_acquire_pidfile file openOk flockOk).file.isSome ∧
       (∀ c, file = some c → (_acquire_pidfile file openOk flockOk).file = some c))) ∧
    (∀ ex nb, PidEvent.flockEv ex nb ∈ (_acquire_pidfile file openOk flockOk).events →
      ex = true ∧ nb = true) ∧
    (openOk = true → flockOk = true →
      ((_acquire_pidfile file openOk flockOk).result = AcqResult.locked ∧
       (∀ c, file = some c → (_acquire_pidfile file openOk flockOk).file = some c))) := by
  cases openOk <;> cases flockOk <;> cases file <;>
    simp [_acquire_pidfile]

/-- Witness for C1: an existing pidfile `"9"`, open succeeding, lock
refused. -/
theorem acquire_pidfile_correct_witness :
    (_acquire_pidfile (some ['9']) true false).result =
      AcqResult.systemExit "Unable to lock PID file." ∧
    PidEvent.closeEv ∈ (_acquire_pidfile (some ['9']) true false).events ∧
    (_acquire_pidfile (some ['9']) true false).file = some ['9'] ∧
    (_acquire_pidfile (some ['9']) true true).result = AcqResult.locked := by
  refine ⟨((acquire_pidfile_correct (some ['9']) true false).1 rfl rfl).1,
    ((acquire_pidfile_correct (some ['9']) true false).1 rfl rfl).2.1,
    ((acquire_pidfile_correct (some ['9']) true false).1 rfl rfl).2.2.2 ['9'] rfl,
    ((acquire_pidfile_correct (some ['9']) true true).2.2 rfl rfl).1⟩

/-! ## `daemote`, `_setgroup`, `_setuser` (C5, C6)

Python source (lines 557–615): `daemote(pid_file, user, group)` calls
`shutil.chown(pid_file, user, group)`, then `_setgroup(group)`, then
`_setuser(user)`.  `_setgroup` / `_setuser` resolve a string name through
the account database (`grp.getgrnam` / `pwd.getpwnam`, raising `KeyError`
when missing), then call `os.setgid` / `os.setuid`; on `OSError` they log
and exit.  `shutil.chown` raises `ValueError` when both arguments are
`None`, resolves string names itself (raising `LookupError` when missing),
then calls `os.chown`.  The account database and the success of the three
system calls are supplied by a `SysEnv` oracle. -/

/-- A non-`None` user/group argument: an account name or a numeric id. -/
inductive Ident
  | name (s : String)
  | numeric (n : Int)
deriving DecidableEq

/-- Account database plus system-call outcomes. `none` from `pwuid` /
`grgid` models `KeyError` / `LookupError` for a missing account. -/
structure SysEnv where
  pwuid : String → Option Int
  grgid : String → Option Int
  chownOk : Bool
  setgidOk : Int → Bool
  setuidOk : Int → Bool

/-- Which privilege changes have actually been applied to the process. -/
structure PrivState where
  gidChanged : Option Int
  uidChanged : Option Int
deriving DecidableEq

def initPriv : PrivState := ⟨none, none⟩

/-- System calls attempted during a `daemote` run, in order.  In
`chownEv`, `-1` stands for an argument that was `None` (left unchanged),
as in `os.chown`. -/
inductive DmEvent
  | chownEv (path : String) (uid gid : Int)
  | setgidEv (gid : Int)
  | setuidEv (uid : Int)
deriving DecidableEq

/-- How a run ends: normally, by an exception propagating out
(`ValueError` / `LookupError` / `KeyError` / `OSError`), or through the
abort path the source takes after a failed `os.setgid` / `os.setuid`. -/
inductive DmOutcome
  | normal
  | raised
  | aborted
deriving DecidableEq

def resolveUser (env : SysEnv) : Ident → Option Int
  | .name s => env.pwuid s
  | .numeric n => some n

def resolveGroup (env : SysEnv) : Ident → Option Int
  | .name s => env.grgid s
  | .numeric n => some n

/-- `shutil.chown(path, user, group)`: `ValueError` when both are `None`;
string names resolved through the account database (`LookupError` when
missing); then one `os.chown` call. -/
def shutilChown (env : SysEnv) (path : String) (user group : Option Ident) :
    List DmEvent × DmOutcome :=
  match user, group with
  | none, none => ([], DmOutcome.raised)
  | none, some g =>
      match resolveGroup env g with
      | none => ([], DmOutcome.raised)
      | some gid =>
          if env.chownOk then ([DmEvent.chownEv path (-1) gid], DmOutcome.normal)
          else ([DmEvent.chownEv path (-1) gid], DmOutcome.raised)
  | some u, none =>
      match resolveUser env u with
      | none => ([], DmOutcome.raised)
      | some uid =>
          if env.chownOk then ([DmEvent.chownEv path uid (-1)], DmOutcome.normal)
          else ([DmEvent.chownEv path uid (-1)], DmOutcome.raised)
  | some u, some g =>
      match resolveUser env u, resolveGroup env g with
      | none, _ => ([], DmOutcome.raised)
      | some _, none => ([], DmOutcome.raised)
      | some uid, some gid =>
          if env.chownOk then ([DmEvent.chownEv path uid gid], DmOutcome.normal)
          else ([DmEvent.chownEv path uid gid], DmOutcome.raised)

/-- `_setgroup(group)`: no-op for `None`; resolve a name (`KeyError`
propagates); `os.setgid(gid)`, logging and exiting on `OSError`. -/
def _setgroup (env : SysEnv) (st : PrivState) (group : Option Ident) :
    List DmEvent × PrivState × DmOutcome :=
  match group with
  | none => ([], st, DmOutcome.normal)
  | some g =>
    match resolveGroup env g with
    | none => ([], st, DmOutcome.raised)
    | some gid =>
        if env.setgidOk gid then
          ([DmEvent.setgidEv gid], { st with gidChanged := some gid }, DmOutcome.normal)
        else
          ([DmEvent.setgidEv gid], st, DmOutcome.aborted)

/-- `_setuser(user)`: no-op for `None`; resolve a name (`KeyError`
propagates); `os.setuid(uid)`, logging and exiting on `OSError`. -/
def _setuser (env : SysEnv) (st : PrivState) (user : Option Ident) :
    List DmEvent × PrivState × DmOutcome :=
  match user with
  | none => ([], st, DmOutcome.normal)
  | some u =>
    match resolveUser env u with
    | none => ([], st, DmOutcome.raised)
    | some uid =>
        if env.setuidOk uid then
          ([DmEvent.setuidEv uid], { st with uidChanged := some uid }, DmOutcome.normal)
        else
          ([DmEvent.setuidEv uid], st, DmOutcome.aborted)

/-- `daemote(pid_file, user, group)`: chown the pidfile, then change group,
then change user, stopping at the first failure.  Returns the trace of
attempted system calls, the final privilege state and the outcome. -/
def daemote (env : SysEnv) (pid_file : String) (user group : Option Ident) :
    List DmEvent × PrivState × DmOutcome :=
  let c := shutilChown env pid_file user group
  if c.2 ≠ DmOutcome.normal then (c.1, initPriv, c.2)
  else
    let g := _setgroup env initPriv group
    if g.2.2 ≠ DmOutcome.normal then (c.1 ++ g.1, g.2.1, g.2.2)
    else
      let u := _setuser env g.2.1 user
      (c.1 ++ g.1 ++ u.1, u.2.1, u.2.2)

/-- An element delivered by `getElem?` on an append and absent from the
left part must sit at or beyond the left part's length. -/
lemma length_le_of_getElem?_not_left {α : Type} (l1 l2 : List α) (i : Nat) (x : α)
    (h : (l1 ++ l2)[i]? = some x) (hx : x ∉ l1) : l1.length ≤ i := by
  by_contra hc
  push_neg at hc
  rw [List.getElem?_append_left hc] at h
  exact hx (List.getElem?_mem h)

/-- An element delivered by `getElem?` on an append and absent from the
right part must sit inside the left part. -/
lemma lt_length_of_getElem?_not_right {α : Type} (l1 l2 : List α) (i : Nat) (x : α)
    (h : (l1 ++ l2)[i]? = some x) (hx : x ∉ l2) : i < l1.length := by
  by_contra hc
  push_neg at hc
  rw [List.getElem?_append_right hc] at h
  exact hx (List.getElem?_mem h)

/-- The chown stage attempts at most one system call: an `os.chown` of the
pidfile path. -/
lemma shutilChown_shape (env : SysEnv) (path : String) (user group : Option Ident) :
    (shutilChown env path user group).1 = [] ∨
    ∃ uid gid, (shutilChown env path user group).1 = [DmEvent.chownEv path uid gid] := by
  rcases user with _ | u <;> rcases group with _ | g <;> rw [shutilChown]
  · left; rfl
  · cases hg : resolveGroup env g
    · left; rfl
    · split_ifs <;> right <;> exact ⟨_, _, rfl⟩
  · cases hu : resolveUser env u
    · left; rfl
    · split_ifs <;> right <;> exact ⟨_, _, rfl⟩
  · cases hu : resolveUser env u <;> cases hg : resolveGroup env g
    · left; rfl
    · left; rfl
    · left; rfl
    · split_ifs <;> right <;> exact ⟨_, _, rfl⟩

/-- A chown stage ending normally attempted exactly one `os.chown`. -/
lemma shutilChown_normal_trace (env : SysEnv) (path : String)
    (user group : Option Ident)
    (h : (shutilChown env path user group).2 = DmOutcome.normal) :
    ∃ uid gid, (shutilChown env path user group).1 = [DmEvent.chownEv path uid gid] := by
  rcases user with _ | u <;> rcases group with _ | g <;> rw [shutilChown] at h ⊢
  · simp at h
  · cases hg : resolveGroup env g
    · rw [hg] at h; simp at h
    · rw [hg] at h
      split_ifs at h ⊢ with hc
      exact ⟨_, _, rfl⟩
  · cases hu : resolveUser env u
    · rw [hu] at h; simp at h
    · rw [hu] at h
      split_ifs at h ⊢ with hc
      exact ⟨_, _, rfl⟩
  · cases hu : resolveUser env u <;> cases hg : resolveGroup env g <;>
      rw [hu, hg] at h
    · simp at h
    · simp at h
    · simp at h
    · split_ifs at h ⊢ with hc
      exact ⟨_, _, rfl⟩

/-- A chown stage ending normally has resolved every name argument, since
`shutil.chown` looks names up in the same account database. -/
lemma shutilChown_normal_resolves (env : SysEnv) (path : String)
    (user group : Option Ident)
    (h : (shutilChown env path user group).2 = DmOutcome.normal) :
    (∀ u, user = some u → (resolveUser env u).isSome) ∧
    (∀ g, group = some g → (resolveGroup env g).isSome) := by
  rcases user with _ | u <;> rcases group with _ | g <;> rw [shutilChown] at h
  · simp at h
  · refine ⟨by simp, fun g' hg' => ?_⟩
    injection hg' with hgg
    subst hgg
    cases hg : resolveGroup env g
    · rw [hg] at h; simp at h
    · simp
  · refine ⟨fun u' hu' => ?_, by simp⟩
    injection hu' with huu
    subst huu
    cases hu : resolveUser env u
    · rw [hu] at h; simp at h
    · simp
  · constructor
    · intro u' hu'
      injection hu' with huu
      subst huu
      cases hu : resolveUser env u
      · rw [hu] at h; simp at h
      · simp
    · intro g' hg'
      injection hg' with hgg
      subst hgg
      cases hg : resolveGroup env g
      · rw [hg] at h
        cases hu : resolveUser env u <;> rw [hu] at h <;> simp at h
      · simp

/-- Every system call attempted by `_setgroup` is an `os.setgid`. -/
lemma _setgroup_shape (env : SysEnv) (st : PrivState) (group : Option Ident) :
    ∀ e ∈ (_setgroup env st group).1, ∃ gid, e = DmEvent.setgidEv gid := by
  rcases group with _ | g
  · intro e he; simp [_setgroup] at he
  · rw [_setgroup]
    rcases hg : resolveGroup env g with _ | gid
    · intro e he; simp at he
    · by_cases hok : env.setgidOk gid
      · simp [hok]
      · simp [hok]

/-- `_setgroup` never touches the user id. -/
lemma _setgroup_uid (env : SysEnv) (st : PrivState) (group : Option Ident) :
    (_setgroup env st group).2.1.uidChanged = st.uidChanged := by
  rcases group with _ | g
  · rfl
  · rw [_setgroup]
    rcases hg : resolveGroup env g with _ | gid
    · rfl
    · by_cases hok : env.setgidOk gid
      · simp [hok]
      · simp [hok]

/-- A `_setgroup` stage that does not end normally applied no change. -/
lemma _setgroup_state (env : SysEnv) (st : PrivState) (group : Option Ident)
    (h : (_setgroup env st group).2.2 ≠ DmOutcome.normal) :
    (_setgroup env st group).2.1 = st := by
  rcases group with _ | g
  · rfl
  · rw [_setgroup] at h ⊢
    rcases hg : resolveGroup env g with _ | gid
    · rfl
    · rw [hg] at h
      by_cases hok : env.setgidOk gid
      · simp [hok] at h
      · simp [hok]

/-- A `_setgroup` stage, on a `some` group that ends normally, attempted
exactly one `os.setgid` with the resolved gid and recorded the change. -/
lemma _setgroup_normal (env : SysEnv) (st : PrivState) (group : Option Ident)
    (h : (_setgroup env st group).2.2 = DmOutcome.normal) :
    ∀ g, group = some g → ∃ gid, resolveGroup env g = some gid ∧
      (_setgroup env st group).1 = [DmEvent.setgidEv gid] ∧
      (_setgroup env st group).2.1.gidChanged = some gid := by
  intro g hg
  subst hg
  rw [_setgroup] at h ⊢
  rcases hgg : resolveGroup env g with _ | gid
  · rw [hgg] at h; simp at h
  · rw [hgg] at h
    by_cases hok : env.setgidOk gid
    · refine ⟨gid, rfl, ?_, ?_⟩ <;> simp [hok]
    · simp [hok] at h

/-- Every system call attempted by `_setuser` is an `os.setuid`. -/
lemma _setuser_shape (env : SysEnv) (st : PrivState) (user : Option Ident) :
    ∀ e ∈ (_setuser env st user).1, ∃ uid, e = DmEvent.setuidEv uid := by
  rcases user with _ | u
  · intro e he; simp [_setuser] at he
  · rw [_setuser]
    rcases hu : resolveUser env u with _ | uid
    · intro e he; simp at he
    · by_cases hok : env.setuidOk uid
      · simp [hok]
      · simp [hok]

/-- `_setuser` never touches the group id. -/
lemma _setuser_gid (env : SysEnv) (st : PrivState) (user : Option Ident) :
    (_setuser env st user).2.1.gidChanged = st.gidChanged := by
  rcases user with _ | u
  · rfl
  · rw [_setuser]
    rcases hu : resolveUser env u with _ | uid
    · rfl
    · by_cases hok : env.setuidOk uid
      · simp [hok]
      · simp [hok]

/-- A `_setuser` stage that does not end normally applied no change. -/
lemma _setuser_state (env : SysEnv) (st : PrivState) (user : Option Ident)
    (h : (_setuser env st user).2.2 ≠ DmOutcome.normal) :
    (_setuser env st user).2.1 = st := by
  rcases user with _ | u
  · rfl
  · rw [_setuser] at h ⊢
    rcases hu : resolveUser env u with _ | uid
    · rfl
    · rw [hu] at h
      by_cases hok : env.setuidOk uid
      · simp [hok] at h
      · simp [hok]

/-- A raising `_setuser` stage means a name that failed to resolve. -/
lemma _setuser_raised (env : SysEnv) (st : PrivState) (user : Option Ident)
    (h : (_setuser env st user).2.2 = DmOutcome.raised) :
    ∃ u, user = some u ∧ resolveUser env u = none := by
  rcases user with _ | u
  · rw [_setuser] at h; simp at h
  · rw [_setuser] at h
    rcases hu : resolveUser env u with _ | uid
    · exact ⟨u, rfl, hu⟩
    · rw [hu] at h
      by_cases hok : env.setuidOk uid
      · simp [hok] at h
      · simp [hok] at h

/-- Recognizer for `os.setuid` attempts in a trace. -/
def isSetuidEv : DmEvent → Bool
  | DmEvent.setuidEv _ => true
  | _ => false

/-- A `_setuser` stage ending in the abort path attempted exactly one
`os.setuid`. -/
lemma _setuser_aborted (env : SysEnv) (st : PrivState) (user : Option Ident)
    (h : (_setuser env st user).2.2 = DmOutcome.aborted) :
    ∃ uid, (_setuser env st user).1 = [DmEvent.setuidEv uid] := by
  rcases user with _ | u
  · rw [_setuser] at h; simp at h
  · rw [_setuser] at h ⊢
    rcases hu : resolveUser env u with _ | uid
    · rw [hu] at h; simp at h
    · rw [hu] at h
      by_cases hok : env.setuidOk uid
      · simp [hok] at h
      · exact ⟨uid, by simp [hok]⟩

/-- A `_setuser` stage, on a `some` user that ends normally, attempted
exactly one `os.setuid` with the resolved uid and recorded the change. -/
lemma _setuser_normal (env : SysEnv) (st : PrivState) (user : Option Ident)
    (h : (_setuser env st user).2.2 = DmOutcome.normal) :
    ∀ u, user = some u → ∃ uid, resolveUser env u = some uid ∧
      (_setuser env st user).1 = [DmEvent.setuidEv uid] ∧
      (_setuser env st user).2.1.uidChanged = some uid := by
  intro u hu
  subst hu
  rw [_setuser] at h ⊢
  rcases huu : resolveUser env u with _ | uid
  · rw [huu] at h; simp at h
  · rw [huu] at h
    by_cases hok : env.setuidOk uid
    · refine ⟨uid, rfl, ?_, ?_⟩ <;> simp [hok]
    · simp [hok] at h

/-- Structure of a `daemote` trace: a chown part (at most one event),
then setgid attempts, then setuid attempts; nothing at all happens
before the chown. -/
lemma daemote_trace_shape (env : SysEnv) (pid_file : String)
    (user group : Option Ident) :
    ∃ ctr gtr utr,
      (daemote env pid_file user group).1 = ctr ++ (gtr ++ utr) ∧
      (ctr = [] ∨ ∃ uid gid, ctr = [DmEvent.chownEv pid_file uid gid]) ∧
      (∀ e ∈ gtr, ∃ gid, e = DmEvent.setgidEv gid) ∧
      (∀ e ∈ utr, ∃ uid, e = DmEvent.setuidEv uid) ∧
      (ctr = [] → gtr = [] ∧ utr = []) := by
  simp only [daemote]
  split_ifs with h1 h2
  · exact ⟨(shutilChown env pid_file user group).1, [], [], by simp,
      shutilChown_shape env pid_file user group, by simp, by simp,
      fun _ => ⟨rfl, rfl⟩⟩
  · obtain ⟨uid, gid, hc⟩ :=
      shutilChown_normal_trace env pid_file user group (not_ne_iff.mp h1)
    refine ⟨(shutilChown env pid_file user group).1,
      (_setgroup env initPriv group).1, [], by simp,
      Or.inr ⟨uid, gid, hc⟩, _setgroup_shape env initPriv group, by simp,
      fun hctr => ?_⟩
    rw [hc] at hctr
    cases hctr
  · obtain ⟨uid, gid, hc⟩ :=
      shutilChown_normal_trace env pid_file user group (not_ne_iff.mp h1)
    refine ⟨(shutilChown env pid_file user group).1,
      (_setgroup env initPriv group).1,
      (_setuser env (_setgroup env initPriv group).2.1 user).1,
      by rw [List.append_assoc],
      Or.inr ⟨uid, gid, hc⟩, _setgroup_shape env initPriv group,
      _setuser_shape env (_setgroup env initPriv group).2.1 user,
      fun hctr => ?_⟩
    rw [hc] at hctr
    cases hctr

/-- Whenever `daemote` attempts any system call, the first one is the
chown of the pidfile path. -/
lemma daemote_head_chown (env : SysEnv) (pid_file : String)
    (user group : Option Ident)
    (hne : (daemote env pid_file user group).1 ≠ []) :
    ∃ uid gid, (daemote env pid_file user group).1.head? =
      some (DmEvent.chownEv pid_file uid gid) := by
  obtain ⟨ctr, gtr, utr, ht, hc, _, _, hcempty⟩ :=
    daemote_trace_shape env pid_file user group
  rcases hc with rfl | ⟨uid, gid, rfl⟩
  · obtain ⟨rfl, rfl⟩ := hcempty rfl
    rw [ht] at hne
    simp at hne
  · exact ⟨uid, gid, by rw [ht]; rfl⟩

/-- Every setgid attempt of a `daemote` run comes strictly before every
setuid attempt. -/
lemma daemote_setgid_before_setuid (env : SysEnv) (pid_file : String)
    (user group : Option Ident) (i j : Nat) (g0 u0 : Int)
    (hi : (daemote env pid_file user group).1[i]? = some (DmEvent.setgidEv g0))
    (hj : (daemote env pid_file user group).1[j]? = some (DmEvent.setuidEv u0)) :
    i < j := by
  obtain ⟨ctr, gtr, utr, ht, hc, hg, hu, _⟩ :=
    daemote_trace_shape env pid_file user group
  have hgid_not_ctr : DmEvent.setgidEv g0 ∉ ctr := by
    rcases hc with rfl | ⟨uid, gid, rfl⟩ <;> simp
  have hgid_not_utr : DmEvent.setgidEv g0 ∉ utr := fun hmem => by
    obtain ⟨uid, he⟩ := hu _ hmem
    exact DmEvent.noConfusion he
  have huid_not_ctr_gtr : DmEvent.setuidEv u0 ∉ ctr ++ gtr := fun hmem => by
    rw [List.mem_append] at hmem
    rcases hmem with hmem | hmem
    · rcases hc with rfl | ⟨uid, gid, rfl⟩
      · simp at hmem
      · simp at hmem
    · obtain ⟨gid, he⟩ := hg _ hmem
      exact DmEvent.noConfusion he
  rw [ht] at hi hj
  have h1 : i < (ctr ++ gtr).length := by
    rw [← List.append_assoc] at hi
    exact lt_length_of_getElem?_not_right _ _ _ _ hi hgid_not_utr
  have h2 : (ctr ++ gtr).length ≤ j := by
    rw [← List.append_assoc] at hj
    exact length_le_of_getElem?_not_left _ _ _ _ hj huid_not_ctr_gtr
  omega

/-- On a normal `daemote` run, a requested group change and a requested
user change were both attempted and recorded. -/
lemma daemote_normal_changes (env : SysEnv) (pid_file : String)
    (user group : Option Ident)
    (hnorm : (daemote env pid_file user group).2.2 = DmOutcome.normal) :
    (∀ g0, group = some g0 → ∃ gid,
      DmEvent.setgidEv gid ∈ (daemote env pid_file user group).1 ∧
      (daemote env pid_file user group).2.1.gidChanged = some gid) ∧
    (∀ u0, user = some u0 → ∃ uid,
      DmEvent.setuidEv uid ∈ (daemote env pid_file user group).1 ∧
      (daemote env pid_file user group).2.1.uidChanged = some uid) := by
  simp only [daemote] at hnorm ⊢
  split_ifs at hnorm ⊢ with h1 h2
  · exact absurd hnorm h1
  · exact absurd hnorm h2
  · constructor
    · intro g0 hg0
      obtain ⟨gid, _, htr, hst⟩ :=
        _setgroup_normal env initPriv group (not_ne_iff.mp h2) g0 hg0
      refine ⟨gid, ?_, ?_⟩
      · rw [htr]; simp
      · rw [_setuser_gid]; exact hst
    · intro u0 hu0
      obtain ⟨uid, _, htr, hst⟩ :=
        _setuser_normal env (_setgroup env initPriv group).2.1 user hnorm u0 hu0
      refine ⟨uid, ?_, ?_⟩
      · rw [htr]; simp
      · exact hst

/-- **C5** — For every pidfile path, user and group: `daemote` first
changes ownership of the pidfile path (the chown is the first attempted
system call whenever any call is attempted), every group-change attempt
comes strictly before every user-change attempt, and on a normal run a
requested group change and user change were both performed, group first. -/
theorem daemote_order (env : SysEnv) (pid_file : String)
    (user group : Option Ident) :
    ((daemote env pid_file user group).1 ≠ [] →
      ∃ uid gid, (daemote env pid_file user group).1.head? =
        some (DmEvent.chownEv pid_file uid gid)) ∧
    (∀ (i j : Nat) (g0 u0 : Int),
      (daemote env pid_file user group).1[i]? = some (DmEvent.setgidEv g0) →
      (daemote env pid_file user group).1[j]? = some (DmEvent.setuidEv u0) →
      i < j) ∧
    ((daemote env pid_file user group).2.2 = DmOutcome.normal →
      (∀ g0, group = some g0 → ∃ gid,
        DmEvent.setgidEv gid ∈ (daemote env pid_file user group).1 ∧
        (daemote env pid_file user group).2.1.gidChanged = some gid) ∧
      (∀ u0, user = some u0 → ∃ uid,
        DmEvent.setuidEv uid ∈ (daemote env pid_file user group).1 ∧
        (daemote env pid_file user group).2.1.uidChanged = some uid)) :=
  ⟨daemote_head_chown env pid_file user group,
   fun i j g0 u0 hi hj => daemote_setgid_before_setuid env pid_file user group i j g0 u0 hi hj,
   daemote_normal_changes env pid_file user group⟩

/-- An environment where every account resolution and system call
succeeds. -/
def envOk : SysEnv :=
  { pwuid := fun _ => some 7, grgid := fun _ => some 8, chownOk := true,
    setgidOk := fun _ => true, setuidOk := fun _ => true }

/-- An environment where `os.setgid` succeeds but `os.setuid` fails. -/
def envNoSetuid : SysEnv :=
  { pwuid := fun _ => none, grgid := fun _ => none, chownOk := true,
    setgidOk := fun _ => true, setuidOk := fun _ => false }

/-- An environment where `os.setgid` itself fails. -/
def envNoSetgid : SysEnv :=
  { pwuid := fun _ => none, grgid := fun _ => none, chownOk := true,
    setgidOk := fun _ => false, setuidOk := fun _ => true }

/-- Witness for C5: numeric user 1000 and group 100 in an all-success
environment; the chown leads, setgid (position 1) precedes setuid
(position 2). -/
theorem daemote_order_witness :
    (∃ uid gid,
      (daemote envOk "pf" (some (Ident.numeric 1000))
        (some (Ident.numeric 100))).1.head? =
          some (DmEvent.chownEv "pf" uid gid)) ∧
    (1 : Nat) < 2 :=
  ⟨(daemote_order envOk "pf" (some (Ident.numeric 1000))
      (some (Ident.numeric 100))).1 (by decide),
   (daemote_order envOk "pf" (some (Ident.numeric 1000))
      (some (Ident.numeric 100))).2.1 1 2 100 1000 (by decide) (by decide)⟩

/-- **C6 (amended)** — On every failing `daemote` run the user id is
never changed; a failure that raises out of the run (a resolution,
`ValueError` or chown failure) leaves the privilege state fully
unchanged; and an aborting run in which no `os.setuid` was ever
attempted — that is, a run whose failing system call was the
`os.setgid` — also leaves the privilege state fully unchanged.  (The
original claim — no failing run ever ends with the group id changed but
the user id unchanged — is false: a setuid failure after a successful
setgid aborts exactly in that mixed state; see the counterexample.) -/
theorem daemote_failure_state (env : SysEnv) (pid_file : String)
    (user group : Option Ident) :
    ((daemote env pid_file user group).2.2 ≠ DmOutcome.normal →
      (daemote env pid_file user group).2.1.uidChanged = none) ∧
    ((daemote env pid_file user group).2.2 = DmOutcome.raised →
      (daemote env pid_file user group).2.1 = initPriv) ∧
    ((daemote env pid_file user group).2.2 = DmOutcome.aborted →
      (∀ e ∈ (daemote env pid_file user group).1, isSetuidEv e = false) →
      (daemote env pid_file user group).2.1 = initPriv) := by
  refine ⟨?_, ?_, ?_⟩
  · intro hfail
    simp only [daemote] at hfail ⊢
    split_ifs at hfail ⊢ with h1 h2
    · rfl
    · show (_setgroup env initPriv group).2.1.uidChanged = none
      rw [_setgroup_uid]
      rfl
    · show (_setuser env (_setgroup env initPriv group).2.1 user).2.1.uidChanged = none
      have hstate := _setuser_state env (_setgroup env initPriv group).2.1 user
        (fun hn => hfail hn)
      rw [hstate, _setgroup_uid]
      rfl
  · intro hr
    simp only [daemote] at hr ⊢
    split_ifs at hr ⊢ with h1 h2
    · rfl
    · show (_setgroup env initPriv group).2.1 = initPriv
      exact _setgroup_state env initPriv group
        (fun hn => by rw [hn] at hr; exact DmOutcome.noConfusion hr)
    · obtain ⟨u0, hu0, hres⟩ :=
        _setuser_raised env (_setgroup env initPriv group).2.1 user hr
      have hresolve := (shutilChown_normal_resolves env pid_file user group
        (not_ne_iff.mp h1)).1 u0 hu0
      rw [hres] at hresolve
      simp at hresolve
  · intro habort hnouid
    simp only [daemote] at habort hnouid ⊢
    split_ifs at habort hnouid ⊢ with h1 h2
    · rfl
    · show (_setgroup env initPriv group).2.1 = initPriv
      exact _setgroup_state env initPriv group h2
    · obtain ⟨uid, htr⟩ :=
        _setuser_aborted env (_setgroup env initPriv group).2.1 user habort
      have hmem : DmEvent.setuidEv uid ∈
          (shutilChown env pid_file user group).1 ++
            (_setgroup env initPriv group).1 ++
            (_setuser env (_setgroup env initPriv group).2.1 user).1 := by
        rw [htr]
        exact List.mem_append_right _ (List.mem_singleton_self _)
      have := hnouid (DmEvent.setuidEv uid) hmem
      simp [isSetuidEv] at this

/-- Witness for C6 (amended): in `envNoSetuid` the run fails and the
user id is unchanged; in `envNoSetgid` (the setgid itself failing, so no
setuid is ever attempted) the aborting run leaves the privilege state
fully unchanged. -/
theorem daemote_failure_state_witness :
    (daemote envNoSetuid "pf" (some (Ident.numeric 1000))
      (some (Ident.numeric 100))).2.2 ≠ DmOutcome.normal ∧
    (daemote envNoSetuid "pf" (some (Ident.numeric 1000))
      (some (Ident.numeric 100))).2.1.uidChanged = none ∧
    (daemote envNoSetgid "pf" (some (Ident.numeric 1000))
      (some (Ident.numeric 100))).2.1 = initPriv :=
  ⟨by decide,
   (daemote_failure_state envNoSetuid "pf" (some (Ident.numeric 1000))
      (some (Ident.numeric 100))).1 (by decide),
   (daemote_failure_state envNoSetgid "pf" (some (Ident.numeric 1000))
      (some (Ident.numeric 100))).2.2 (by decide) (by decide)⟩

/-- **C6 counterexample** — with a successful chown and setgid but a
failing setuid (numeric user 1000, group 100), `daemote` fails *after*
the group change: the run ends in the abort path with the group id
changed to 100 and the user id unchanged — exactly the mixed state the
original claim rules out. -/
theorem daemote_mixed_state_counterexample :
    (daemote envNoSetuid "pidfile" (some (Ident.numeric 1000))
      (some (Ident.numeric 100))).2.2 = DmOutcome.aborted ∧
    (daemote envNoSetuid "pidfile" (some (Ident.numeric 1000))
      (some (Ident.numeric 100))).2.1.gidChanged = some 100 ∧
    (daemote envNoSetuid "pidfile" (some (Ident.numeric 1000))
      (some (Ident.numeric 100))).2.1.uidChanged = none := by
  refine ⟨by decide, by decide, by decide⟩

/-! ## `_redirect_stds` access computation (C7)

Python source (lines 320–371): the three target paths are deduplicated
into a set; each path accumulates an access mask
(`streams[stdin_goto] |= read_mask` etc.), the mask is translated by
`access_lookup` into an open flag, and for each unique path the file is
created if missing, then opened exactly once. -/

inductive Access
  | rdonly
  | wronly
  | rdwr
deriving DecidableEq

def read_mask : Nat := 1

def write_mask : Nat := 2

/-- The per-path access mask accumulated by `_redirect_stds`. -/
def streamMask (stdin_goto stdout_goto stderr_goto p : String) : Nat :=
  (if p = stdin_goto then read_mask else 0) |||
  (if p = stdout_goto then write_mask else 0) |||
  (if p = stderr_goto then write_mask else 0)

/-- `access_lookup`: mask `0b01` → `O_RDONLY`, `0b10` → `O_WRONLY`,
`0b11` → `O_RDWR` (the dictionary has no other keys, so any other mask
would be a lookup failure). -/
def access_lookup : Nat → Option Access
  | 1 => some Access.rdonly
  | 2 => some Access.wronly
  | 3 => some Access.rdwr
  | _ => none

/-- The union of the access requirements of the slots mapped to a path,
as the spec words it: a read requirement when the path serves stdin, a
write requirement when it serves stdout or stderr. -/
def unionAccess : Bool → Bool → Option Access
  | true, true => some Access.rdwr
  | true, false => some Access.rdonly
  | false, true => some Access.wronly
  | false, false => none

/-- The deduplicated set of target paths
(`streams = {stdin_goto, stdout_goto, stderr_goto}`). -/
def uniquePaths (a b c : String) : List String := [a, b, c].dedup

/-- Events of the open loop. -/
inductive RdEvent
  | createEv (p : String)
  | openEv (p : String) (acc : Option Access)
deriving DecidableEq

/-- One iteration of the open loop for path `p`: create the file when
missing (`ex p = false`), then open it with the mask-derived access. -/
def redirectBlock (ex : String → Bool) (a b c : String) (p : String) : List RdEvent :=
  (if ex p then [] else [RdEvent.createEv p]) ++
  [RdEvent.openEv p (access_lookup (streamMask a b c p))]

/-- `_redirect_stds(stdin_goto, stdout_goto, stderr_goto)`: the open loop
over the deduplicated paths (`ex` tells which paths already exist). -/
def _redirect_stds_opens (ex : String → Bool) (a b c : String) : List RdEvent :=
  (uniquePaths a b c).flatMap (redirectBlock ex a b c)

/-- The opens performed in a trace, in order. -/
def opensOf (t : List RdEvent) : List (String × Option Access) :=
  t.filterMap (fun e => match e with
    | RdEvent.openEv p acc => some (p, acc)
    | _ => none)

/-- The mask accumulated for a path is the sum of a read bit (the path
serves stdin) and a write bit (it serves stdout or stderr). -/
lemma streamMask_eq (a b c p : String) :
    streamMask a b c p =
      (if p = a then 1 else 0) + (if p = b ∨ p = c then 2 else 0) := by
  rw [streamMask, read_mask, write_mask]
  split_ifs <;> first | decide | tauto

lemma opensOf_append (s t : List RdEvent) :
    opensOf (s ++ t) = opensOf s ++ opensOf t := by
  rw [opensOf, opensOf, opensOf, List.filterMap_append]

/-- Each loop iteration opens its path exactly once. -/
lemma opensOf_redirectBlock (ex : String → Bool) (a b c p : String) :
    opensOf (redirectBlock ex a b c p) =
      [(p, access_lookup (streamMask a b c p))] := by
  rw [redirectBlock]
  cases hex : ex p <;> simp [opensOf]

lemma opensOf_flatMap (ex : String → Bool) (a b c : String) (l : List String) :
    opensOf (l.flatMap (redirectBlock ex a b c)) =
      l.map (fun p => (p, access_lookup (streamMask a b c p))) := by
  induction l with
  | nil => rfl
  | cons p rest ih =>
      rw [List.flatMap_cons, opensOf_append, opensOf_redirectBlock, ih,
        List.map_cons, List.singleton_append]

/-- **C7** — `_redirect_stds` opens each unique target path exactly once
(the open list is exactly one open per deduplicated path), with the union
of the access requirements of the slots mapped to it: read exactly when
the path serves stdin, write exactly when it serves stdout or stderr,
creating the file first when it is missing; in particular when stdin and
stdout share a path that path is opened read-write (`O_RDWR`). -/
theorem redirect_stds_access (ex : String → Bool) (a b c : String) :
    opensOf (_redirect_stds_opens ex a b c) =
      (uniquePaths a b c).map (fun p => (p, access_lookup (streamMask a b c p))) ∧
    (uniquePaths a b c).Nodup ∧
    (∀ p, p ∈ uniquePaths a b c ↔ (p = a ∨ p = b ∨ p = c)) ∧
    (∀ p, p = a ∨ p = b ∨ p = c →
      access_lookup (streamMask a b c p) =
        unionAccess (decide (p = a)) (decide (p = b ∨ p = c))) ∧
    (∀ p, ex p = false → redirectBlock ex a b c p =
      [RdEvent.createEv p, RdEvent.openEv p (access_lookup (streamMask a b c p))]) ∧
    (a = b → access_lookup (streamMask a b c a) = some Access.rdwr) := by
  refine ⟨opensOf_flatMap ex a b c (uniquePaths a b c),
    List.nodup_dedup _, fun p => ?_, fun p hp => ?_, fun p hexp => ?_, fun hab => ?_⟩
  · simp [uniquePaths, List.mem_dedup]
  · rw [streamMask_eq]
    by_cases h1 : p = a <;> by_cases h2 : p = b ∨ p = c
    · rw [if_pos h1, if_pos h2, decide_eq_true h1, decide_eq_true h2]; decide
    · rw [if_pos h1, if_neg h2, decide_eq_true h1, decide_eq_false h2]; decide
    · rw [if_neg h1, if_pos h2, decide_eq_false h1, decide_eq_true h2]; decide
    · exfalso; tauto
  · simp [redirectBlock, hexp]
  · rw [streamMask_eq, if_pos rfl, if_pos (Or.inl hab)]
    decide

/-- Witness for C7: stdin and stdout both to `"f"`, stderr to `"g"`,
neither file existing yet. -/
theorem redirect_stds_access_witness :
    access_lookup (streamMask "f" "f" "g" "f") = some Access.rdwr ∧
    opensOf (_redirect_stds_opens (fun _ => false) "f" "f" "g") =
      [("f", some Access.rdwr), ("g", some Access.wronly)] :=
  ⟨(redirect_stds_access (fun _ => false) "f" "f" "g").2.2.2.2.2 rfl,
   by decide⟩

/-! ## `send` and `ping` (C8, C10)

Python source (lines 523–552): `send` extracts a signal number (from a
`ReceivedSignal` or by `int(...)`), reads the pidfile, parses its content
with `int(f.read())` (raising `ValueError` on non-numeric content), then
calls `os.kill(pid, signum)`.  `ping` calls `send(pid_file, 0)` and
converts exactly `OSError` into `False`; anything else propagates. -/

/-- A structured signal value carrying its number. -/
structure ReceivedSignal where
  SIGNUM : Int
deriving DecidableEq

/-- The argument accepted by `send`: a raw number or a `ReceivedSignal`. -/
inductive SigArg
  | num (n : Int)
  | exc (r : ReceivedSignal)
deriving DecidableEq

inductive PyError
  | osError
  | valueError
deriving DecidableEq

/-- Whitespace stripped by Python `int()`. -/
def isSpaceCh (ch : Char) : Bool :=
  ch = ' ' ∨ ch = (Char.ofNat 9) ∨ ch = (Char.ofNat 10) ∨ ch = (Char.ofNat 13)

def isDigitCh (ch : Char) : Bool := 48 ≤ ch.toNat ∧ ch.toNat ≤ 57

def digitsToNat (l : List Char) : Nat :=
  l.foldl (fun acc ch => 10 * acc + (ch.toNat - 48)) 0

/-- The sign-and-digits core of Python `int()`. -/
def pyIntCore (t : List Char) : Option Int :=
  match t with
  | [] => none
  | c :: ds =>
      if c = '-' then
        if ds ≠ [] ∧ ds.all isDigitCh then some (-(digitsToNat ds : Int)) else none
      else if c = '+' then
        if ds ≠ [] ∧ ds.all isDigitCh then some ((digitsToNat ds : Int)) else none
      else
        if (c :: ds).all isDigitCh then some ((digitsToNat (c :: ds) : Int)) else none

/-- Python `int(s)` on pidfile text: surrounding whitespace is ignored,
an optional sign and decimal digits are accepted; `none` models the
`ValueError` raised otherwise. -/
def pyInt (s : List Char) : Option Int :=
  pyIntCore (((s.dropWhile isSpaceCh).reverse.dropWhile isSpaceCh).reverse)

def signumOf : SigArg → Int
  | SigArg.num n => n
  | SigArg.exc r => r.SIGNUM

/-- `send(pid_file, signal)` over pidfile content `content`;
`killOk pid sig` tells whether `os.kill(pid, sig)` succeeds. -/
def send (killOk : Int → Int → Bool) (content : List Char) (sg : SigArg) :
    Except PyError Unit :=
  match pyInt content with
  | none => Except.error PyError.valueError
  | some pid =>
      if killOk pid (signumOf sg) then Except.ok ()
      else Except.error PyError.osError

/-- `ping(pid_file)`: `send(pid_file, 0)`, catching exactly `OSError` as
`False`; success is `True`; other exceptions propagate. -/
def ping (killOk : Int → Int → Bool) (content : List Char) : Except PyError Bool :=
  match send killOk content (SigArg.num 0) with
  | Except.ok _ => Except.ok true
  | Except.error PyError.osError => Except.ok false
  | Except.error e => Except.error e

/-- **C8** — For every pidfile whose content parses as a decimal integer
`pid`, `ping` returns a boolean: it probes `os.kill(pid, 0)` and yields
`False` exactly when delivery raises an OS-level error, `True` otherwise;
no delivery error escapes as an exception. -/
theorem ping_boolean (killOk : Int → Int → Bool) (content : List Char) (pid : Int)
    (h : pyInt content = some pid) :
    ping killOk content = Except.ok (killOk pid 0) := by
  cases hk : killOk pid 0 <;> simp [ping, send, signumOf, h, hk]

/-- Witness for C8: content `"42"` and an `os.kill` that always fails
yield `ok false`. -/
theorem ping_boolean_witness :
    pyInt ['4', '2', Char.ofNat 10] = some 42 ∧
    ping (fun _ _ => false) ['4', '2', Char.ofNat 10] = Except.ok false :=
  ⟨by decide,
   ping_boolean (fun _ _ => false) ['4', '2', Char.ofNat 10] 42 (by decide)⟩

/-- **C10** — For every pidfile content that does not parse as a decimal
integer, `ping` does not return `False`: the `ValueError` raised inside
`send` propagates out of `ping`; only OS-level delivery errors become the
boolean `False`. -/
theorem ping_parse_error_propagates (killOk : Int → Int → Bool)
    (content : List Char) (h : pyInt content = none) :
    ping killOk content = Except.error PyError.valueError := by
  simp [ping, send, h]

/-- Witness for C10: content `"abc"`. -/
theorem ping_parse_error_propagates_witness :
    pyInt ['a', 'b', 'c'] = none ∧
    ping (fun _ _ => true) ['a', 'b', 'c'] = Except.error PyError.valueError :=
  ⟨by decide,
   ping_parse_error_propagates (fun _ _ => true) ['a', 'b', 'c'] (by decide)⟩

/-! ## `_flush_stds` (C9)

Python source (lines 295–317): `sys.stdout.flush()` inside
`try/except BlockingIOError` (logging the failure), then the same for
`sys.stderr`.  Only `BlockingIOError` is caught: any other exception
raised by a flush propagates. -/

inductive FlushExc
  | blockingIOError
  | otherExc
deriving DecidableEq

/-- `_flush_stds()`, with `o` / `e` the exception raised by the stdout /
stderr flush (`none` = success).  Returns the log lines and either
success or the propagated exception. -/
def _flush_stds (o e : Option FlushExc) : List String × Except FlushExc Unit :=
  match o with
  | some FlushExc.otherExc => ([], Except.error FlushExc.otherExc)
  | some FlushExc.blockingIOError =>
      match e with
      | some FlushExc.otherExc =>
          (["Failed to flush stdout"], Except.error FlushExc.otherExc)
      | some FlushExc.blockingIOError =>
          (["Failed to flush stdout", "Failed to flush stderr"], Except.ok ())
      | none => (["Failed to flush stdout"], Except.ok ())
  | none =>
      match e with
      | some FlushExc.otherExc => ([], Except.error FlushExc.otherExc)
      | some FlushExc.blockingIOError =>
          (["Failed to flush stderr"], Except.ok ())
      | none => ([], Except.ok ())

/-- **C9 (amended)** — Every `BlockingIOError` raised while flushing the
pre-existing stdout or stderr is logged and execution continues: when
neither flush raises anything other than `BlockingIOError`,
`_flush_stds` succeeds, logging each blocked flush.  (The original claim
— *every* exception is contained — is false: the source catches only
`BlockingIOError`, so any other exception propagates; see the
counterexample.) -/
theorem flush_stds_blocking_contained (o e : Option FlushExc) :
    ((o = none ∨ o = some FlushExc.blockingIOError) →
     (e = none ∨ e = some FlushExc.blockingIOError) →
      (_flush_stds o e).2 = Except.ok ()) ∧
    (o = some FlushExc.blockingIOError →
      "Failed to flush stdout" ∈ (_flush_stds o e).1) ∧
    (e = some FlushExc.blockingIOError →
      (o = none ∨ o = some FlushExc.blockingIOError) →
      "Failed to flush stderr" ∈ (_flush_stds o e).1) := by
  rcases o with _ | of <;> rcases e with _ | ef <;>
    [skip; cases ef; cases of; (cases of <;> cases ef)] <;>
    refine ⟨?_, ?_, ?_⟩ <;> simp [_flush_stds]

/-- Witness for C9 (amended): stdout blocked, stderr fine — the run
succeeds and the stdout failure is logged. -/
theorem flush_stds_blocking_contained_witness :
    (_flush_stds (some FlushExc.blockingIOError) none).2 = Except.ok () ∧
    "Failed to flush stdout" ∈
      (_flush_stds (some FlushExc.blockingIOError) none).1 :=
  ⟨(flush_stds_blocking_contained (some FlushExc.blockingIOError) none).1
      (Or.inr rfl) (Or.inl rfl),
   (flush_stds_blocking_contained (some FlushExc.blockingIOError) none).2.1 rfl⟩

/-- **C9 counterexample** — an exception other than `BlockingIOError`
raised while flushing stdout propagates out of `_flush_stds` (and would
abort daemonization), contradicting "never propagates". -/
theorem flush_stds_counterexample :
    (_flush_stds (some FlushExc.otherExc) none).2 =
      Except.error FlushExc.otherExc := rfl

end Daemoniker
